import Mathlib

/-!
Shallow embedding of the Temporal Stochastic Unit race engine
(`run_symmetric_race` in `src/tsu.cpp`) and verification of the
specification's claims about it.

Modelling conventions:
* C `uint32_t` values are integers reduced modulo 2^32 (`u32`); C's
  `int64_t` values are plain `Int` (no 64-bit overflow occurs in range).
* The `float` bias is modelled as a rational number; the C cast
  `(int)(bias * 500)` truncates toward zero (`truncQ`), which on
  rationals is the floor for nonnegative arguments and the ceiling for
  negative ones.
* The monotonic clock reading `esp_timer_get_time() - start` is modelled
  as a function `clock : ℕ → Int` giving the elapsed-time value sampled
  by the i-th iteration of the polling loop; the busy-wait loop is
  modelled with explicit fuel, `none` meaning the fuel was exhausted
  with the loop still running (so termination statements are statements
  that enough fuel yields `some`).
* The entropy sample `esp_cpu_get_cycle_count()` is modelled as a
  natural number `cycles`, reduced `% 5` exactly as in the source.
-/

namespace TSU

/-- Reduction of an integer into `uint32_t` range, i.e. modulo 2^32.
`Int.emod` always yields a value in `[0, 2^32)`, matching C's
well-defined conversion to an unsigned type. -/
def u32 (x : Int) : Int := x % 4294967296

/-- The pair of arrival markers `arrival_a`, `arrival_b` of
`run_symmetric_race` (`uint32_t` in the source, `0` = not yet arrived). -/
structure RaceState where
  arrival_a : Int
  arrival_b : Int
deriving DecidableEq

/-- The output structure `TSU_Result` of the source: winner code
(0 = A, 1 = B), decision latency, inter-arrival delta. -/
structure TSU_Result where
  winner : Int
  latency : Int
  delta : Int
deriving DecidableEq

/-- Truncation toward zero of a rational, the behaviour of C's
float-to-int cast `(int)(...)` on (exactly representable) values. -/
def truncQ (q : ℚ) : Int := if 0 ≤ q then ⌊q⌋ else ⌈q⌉

/-- The bias term `(int)(bias * 500)` of lines 70-71 of the source. -/
def biasTerm (bias : ℚ) : Int := truncQ (bias * 500)

/-- Line 56: `cpu_jitter = esp_cpu_get_cycle_count() % 5`. -/
def cpuJitter (cycles : ℕ) : Int := ((cycles % 5 : ℕ) : Int)

/-- Line 70: `uint32_t target_a = 1000 - (int)(bias * 500) + cpu_jitter`.
The subtraction happens in `int`; adding the `uint32_t` jitter converts
the result to `uint32_t`, i.e. reduces it modulo 2^32. -/
def target_a (bias : ℚ) (cycles : ℕ) : Int :=
  u32 (1000 - biasTerm bias + cpuJitter cycles)

/-- Line 71: `uint32_t target_b = 1000 + (int)(bias * 500)`; the `int`
result is converted to `uint32_t`, i.e. reduced modulo 2^32. -/
def target_b (bias : ℚ) : Int := u32 (1000 + biasTerm bias)

/-- One iteration body of the race loop (lines 105-114): each marker
still at the sentinel `0` whose threshold is reached by `current` is set
to `(uint32_t)current`. -/
def raceStep (ta tb : Int) (s : RaceState) (current : Int) : RaceState :=
  { arrival_a := if s.arrival_a = 0 ∧ ta ≤ current then u32 current else s.arrival_a
    arrival_b := if s.arrival_b = 0 ∧ tb ≤ current then u32 current else s.arrival_b }

/-- The race loop (lines 93-120): while some marker is `0`, sample
`current = clock i`, run the iteration body, and `break` if
`current > 5000`. Returns the exit state together with the number of
clock readings taken; `none` if the fuel ran out with the loop still
running. -/
def raceLoop (ta tb : Int) (clock : ℕ → Int) : ℕ → ℕ → RaceState → Option (RaceState × ℕ)
  | 0, _, _ => none
  | fuel+1, i, s =>
    if s.arrival_a ≠ 0 ∧ s.arrival_b ≠ 0 then some (s, i)
    else if 5000 < clock i then some (raceStep ta tb s (clock i), i+1)
    else raceLoop ta tb clock fuel (i+1) (raceStep ta tb s (clock i))

/-- Decision extraction (lines 127-146): winner by the `<=` comparison,
latency = the winner's marker, delta = the larger marker minus the
smaller one. -/
def extract (s : RaceState) : TSU_Result :=
  { winner := if s.arrival_a ≤ s.arrival_b then 0 else 1
    latency := if s.arrival_a ≤ s.arrival_b then s.arrival_a else s.arrival_b
    delta := if s.arrival_b < s.arrival_a then s.arrival_a - s.arrival_b
             else s.arrival_b - s.arrival_a }

/-- `run_symmetric_race` (lines 43-153): compute the two thresholds from
the bias and the entropy sample, run the race loop from elapsed time 0
with both markers at the sentinel, and extract the result. -/
def run_symmetric_race (bias : ℚ) (cycles : ℕ) (clock : ℕ → Int) (fuel : ℕ) :
    Option TSU_Result :=
  (raceLoop (target_a bias cycles) (target_b bias) clock fuel 0 ⟨0, 0⟩).map
    (fun p => extract p.1)

/-- Modelled from the spec (§4.1): the spec's round-to-nearest threshold
formula `target_a = baseline - round(bias * bias_scale) + jitter`, for
comparison with the code's truncating `target_a`. -/
def target_a_round (bias : ℚ) (jitter : Int) : Int :=
  1000 - round (bias * 500) + jitter

/-- Modelled from the spec (§4.1): the spec's round-to-nearest threshold
formula `target_b = baseline + round(bias * bias_scale)`. -/
def target_b_round (bias : ℚ) : Int := 1000 + round (bias * 500)

/-- Threshold computation for the concrete bias 1/2 with entropy sample 0. -/
lemma target_half_a : target_a (1/2) 0 = 750 := by
  norm_num [target_a, biasTerm, truncQ, u32, cpuJitter]

lemma target_half_b : target_b (1/2) = 1250 := by
  norm_num [target_b, biasTerm, truncQ, u32]

/-- Threshold computation for the concrete bias 5/2 with entropy sample 0:
the negative intermediate value wraps around modulo 2^32. -/
lemma target_fivehalves_a : target_a (5/2) 0 = 4294967046 := by
  norm_num [target_a, biasTerm, truncQ, u32, cpuJitter]

lemma target_fivehalves_b : target_b (5/2) = 2250 := by
  norm_num [target_b, biasTerm, truncQ, u32]

/-- Threshold computation for bias 0 with entropy sample 0. -/
lemma target_zero_a : target_a 0 0 = 1000 := by
  norm_num [target_a, biasTerm, truncQ, u32, cpuJitter]

lemma target_zero_b : target_b 0 = 1000 := by
  norm_num [target_b, biasTerm, truncQ, u32]

/-- Threshold computation for bias 2 with entropy sample 0: the
computed threshold of path A is exactly 0. -/
lemma target_two_a : target_a 2 0 = 0 := by
  norm_num [target_a, biasTerm, truncQ, u32, cpuJitter]

lemma target_two_b : target_b 2 = 2000 := by
  norm_num [target_b, biasTerm, truncQ, u32]

/-- Threshold computation for bias -10 with entropy sample 0: path B's
negative computed threshold wraps around modulo 2^32. -/
lemma target_negten_a : target_a (-10) 0 = 6000 := by
  rw [target_a, biasTerm, truncQ,
    show ((-10 : ℚ) * 500) = ((-5000 : ℤ) : ℚ) by norm_num]
  rw [if_neg (by norm_num), Int.ceil_intCast]
  norm_num [u32, cpuJitter]

lemma target_negten_b : target_b (-10) = 4294963296 := by
  rw [target_b, biasTerm, truncQ,
    show ((-10 : ℚ) * 500) = ((-5000 : ℤ) : ℚ) by norm_num]
  rw [if_neg (by norm_num), Int.ceil_intCast, u32]
  decide

/-- A marker that is already set (nonzero) is never modified by an
iteration of the race loop. -/
lemma raceStep_keep_a (ta tb : Int) (s : RaceState) (c : Int)
    (h : s.arrival_a ≠ 0) : (raceStep ta tb s c).arrival_a = s.arrival_a := by
  simp [raceStep, h]

lemma raceStep_keep_b (ta tb : Int) (s : RaceState) (c : Int)
    (h : s.arrival_b ≠ 0) : (raceStep ta tb s c).arrival_b = s.arrival_b := by
  simp [raceStep, h]

/-- Once a marker is set, the whole rest of the race loop leaves it
unchanged. -/
lemma raceLoop_keep (ta tb : Int) (clock : ℕ → Int) :
    ∀ (fuel i : ℕ) (s s' : RaceState) (n : ℕ),
      raceLoop ta tb clock fuel i s = some (s', n) →
      (s.arrival_a ≠ 0 → s'.arrival_a = s.arrival_a) ∧
      (s.arrival_b ≠ 0 → s'.arrival_b = s.arrival_b) := by
  intro fuel
  induction fuel with
  | zero => intro i s s' n h; simp [raceLoop] at h
  | succ fuel ih =>
    intro i s s' n h
    rw [raceLoop] at h
    split at h
    · obtain ⟨rfl, rfl⟩ : s = s' ∧ i = n := by simpa using h
      exact ⟨fun _ => rfl, fun _ => rfl⟩
    · split at h
      · obtain ⟨rfl, rfl⟩ : raceStep ta tb s (clock i) = s' ∧ i + 1 = n := by
          simpa using h
        exact ⟨fun ha => raceStep_keep_a ta tb s _ ha,
               fun hb => raceStep_keep_b ta tb s _ hb⟩
      · have h2 := ih (i+1) (raceStep ta tb s (clock i)) s' n h
        constructor
        · intro ha
          rw [h2.1 (by rw [raceStep_keep_a ta tb s _ ha]; exact ha)]
          exact raceStep_keep_a ta tb s _ ha
        · intro hb
          rw [h2.2 (by rw [raceStep_keep_b ta tb s _ hb]; exact hb)]
          exact raceStep_keep_b ta tb s _ hb

/-- If path A's threshold is above every clock reading, the race loop
can never set path A's marker. -/
lemma raceLoop_a_never (ta tb : Int) (clock : ℕ → Int)
    (hc : ∀ k, clock k < ta) :
    ∀ (fuel i : ℕ) (s s' : RaceState) (n : ℕ),
      s.arrival_a = 0 →
      raceLoop ta tb clock fuel i s = some (s', n) → s'.arrival_a = 0 := by
  intro fuel
  induction fuel with
  | zero => intro i s s' n _ h; simp [raceLoop] at h
  | succ fuel ih =>
    intro i s s' n ha h
    have hstep : (raceStep ta tb s (clock i)).arrival_a = 0 := by
      simp only [raceStep]
      rw [if_neg]
      · exact ha
      · intro hcon
        exact absurd hcon.2 (not_le.mpr (hc i))
    rw [raceLoop] at h
    split at h
    · obtain ⟨rfl, rfl⟩ : s = s' ∧ i = n := by simpa using h
      exact ha
    · split at h
      · obtain ⟨rfl, rfl⟩ : raceStep ta tb s (clock i) = s' ∧ i + 1 = n := by
          simpa using h
        exact hstep
      · exact ih (i+1) (raceStep ta tb s (clock i)) s' n hstep h

/-- An iteration whose reading crosses no new threshold leaves the
state unchanged. -/
lemma raceStep_id (ta tb c : Int) (s : RaceState)
    (ha : s.arrival_a ≠ 0 ∨ c < ta) (hb : s.arrival_b ≠ 0 ∨ c < tb) :
    raceStep ta tb s c = s := by
  have hna : ¬(s.arrival_a = 0 ∧ ta ≤ c) := by
    rintro ⟨h1, h2⟩
    rcases ha with h3 | h3
    · exact h3 h1
    · exact absurd h2 (not_le.mpr h3)
  have hnb : ¬(s.arrival_b = 0 ∧ tb ≤ c) := by
    rintro ⟨h1, h2⟩
    rcases hb with h3 | h3
    · exact h3 h1
    · exact absurd h2 (not_le.mpr h3)
  unfold raceStep
  rw [if_neg hna, if_neg hnb]

/-- Iterations that change nothing and stay within the timeout window
only advance the reading index of the race loop. -/
lemma raceLoop_skip (ta tb : Int) (clock : ℕ → Int) :
    ∀ (m fuel i : ℕ) (s : RaceState),
      ¬(s.arrival_a ≠ 0 ∧ s.arrival_b ≠ 0) →
      (∀ k, i ≤ k → k < i + m →
        raceStep ta tb s (clock k) = s ∧ clock k ≤ 5000) →
      raceLoop ta tb clock (m + fuel) i s = raceLoop ta tb clock fuel (i + m) s := by
  intro m
  induction m with
  | zero => intro fuel i s _ _; simp
  | succ m ih =>
    intro fuel i s hcond hk
    have hk0 := hk i le_rfl (by omega)
    rw [show m + 1 + fuel = (m + fuel) + 1 from by omega, raceLoop,
      if_neg hcond, if_neg (not_lt.mpr hk0.2), hk0.1,
      ih fuel (i+1) s hcond (fun k h1 h2 => hk k (by omega) (by omega)),
      show i + 1 + m = i + (m + 1) from by omega]

/-- With a reading beyond the timeout within fuel range, the race loop
returns, and at exit either both markers are set or the last sampled
reading exceeded the timeout. -/
lemma raceLoop_total (ta tb : Int) (clock : ℕ → Int) :
    ∀ (fuel i : ℕ) (s : RaceState),
      (∃ k, k < fuel ∧ 5000 < clock (i + k)) →
      ∃ s' n, raceLoop ta tb clock fuel i s = some (s', n) ∧
        ((s'.arrival_a ≠ 0 ∧ s'.arrival_b ≠ 0) ∨ 5000 < clock (n - 1)) := by
  intro fuel
  induction fuel with
  | zero =>
    intro i s h
    obtain ⟨k, hk, _⟩ := h
    omega
  | succ fuel ih =>
    intro i s h
    obtain ⟨k, hk, hck⟩ := h
    by_cases hcond : s.arrival_a ≠ 0 ∧ s.arrival_b ≠ 0
    · exact ⟨s, i, by rw [raceLoop, if_pos hcond], Or.inl hcond⟩
    · by_cases hbrk : 5000 < clock i
      · refine ⟨raceStep ta tb s (clock i), i + 1,
          by rw [raceLoop, if_neg hcond, if_pos hbrk], Or.inr ?_⟩
        simpa using hbrk
      · have hkne : k ≠ 0 := by
          rintro rfl
          rw [Nat.add_zero] at hck
          omega
        obtain ⟨s', n, h1, h2⟩ := ih (i+1) (raceStep ta tb s (clock i))
          ⟨k - 1, by omega, by rw [show i + 1 + (k - 1) = i + k from by omega]
                               exact hck⟩
        exact ⟨s', n, by rw [raceLoop, if_neg hcond, if_neg hbrk]; exact h1, h2⟩

/-- C5. For every bias and every clock with a reading beyond the 5000
time-unit timeout in range, the race loop terminates with a result:
it exits with both arrival markers set, or because a sampled reading
exceeded the timeout, whichever comes first; it never hangs even if
neither threshold is ever reached. -/
theorem c5_terminates (bias : ℚ) (cycles : ℕ) (clock : ℕ → Int) (N : ℕ)
    (_hmono : Monotone clock) (hN : 5000 < clock N) :
    ∃ s n, raceLoop (target_a bias cycles) (target_b bias) clock (N+1) 0 ⟨0, 0⟩ =
        some (s, n) ∧
      run_symmetric_race bias cycles clock (N+1) = some (extract s) ∧
      ((s.arrival_a ≠ 0 ∧ s.arrival_b ≠ 0) ∨ 5000 < clock (n - 1)) := by
  obtain ⟨s, n, h1, h2⟩ :=
    raceLoop_total (target_a bias cycles) (target_b bias) clock (N+1) 0 ⟨0, 0⟩
      ⟨N, by omega, by simpa using hN⟩
  exact ⟨s, n, h1, by rw [run_symmetric_race, h1]; rfl, h2⟩

/-- Witness for C5: a concrete clock crossing the timeout at its second
reading; the loop returns after two readings. -/
theorem c5_witness :
    run_symmetric_race 0 0 (fun n => 6000 * (n : Int)) 2 = some ⟨0, 6000, 0⟩ := by
  obtain ⟨s, n, h1, h2, h3⟩ := c5_terminates 0 0 (fun n => 6000 * (n : Int)) 1
    (fun a b hab => by dsimp only; omega) (by norm_num)
  have hcalc : raceLoop (target_a 0 0) (target_b 0) (fun n => 6000 * (n : Int)) 2 0
      ⟨0, 0⟩ = some (⟨6000, 6000⟩, 2) := by
    rw [target_zero_a, target_zero_b]; decide
  rw [hcalc] at h1
  obtain ⟨rfl, rfl⟩ : (⟨6000, 6000⟩ : RaceState) = s ∧ 2 = n := by simpa using h1
  rw [h2]
  rfl

/-- Latency-bound invariant of the race loop: from a state whose set
markers are bounded by the previous reading (taken below the timeout),
every exit state has nonnegative markers bounded by the timeout plus
the final polling increment. -/
lemma raceLoop_bound (clock : ℕ → Int) (hm : Monotone clock) (h0 : 0 ≤ clock 0)
    (ta tb : Int) :
    ∀ (fuel i : ℕ) (s s' : RaceState) (n : ℕ),
      0 ≤ s.arrival_a → 0 ≤ s.arrival_b →
      (s.arrival_a ≠ 0 → 1 ≤ i ∧ s.arrival_a ≤ clock (i - 1)) →
      (s.arrival_b ≠ 0 → 1 ≤ i ∧ s.arrival_b ≤ clock (i - 1)) →
      (1 ≤ i → clock (i - 1) ≤ 5000) →
      raceLoop ta tb clock fuel i s = some (s', n) →
      0 ≤ s'.arrival_a ∧ 0 ≤ s'.arrival_b ∧ 1 ≤ n ∧
      s'.arrival_a ≤ 5000 + (clock (n - 1) - if 2 ≤ n then clock (n - 2) else 0) ∧
      s'.arrival_b ≤ 5000 + (clock (n - 1) - if 2 ≤ n then clock (n - 2) else 0) := by
  intro fuel
  induction fuel with
  | zero => intro i s s' n _ _ _ _ _ h; simp [raceLoop] at h
  | succ fuel ih =>
    intro i s s' n ha0 hb0 hA hB hprev h
    have hci : 0 ≤ clock i := le_trans h0 (hm (Nat.zero_le i))
    rw [raceLoop] at h
    split at h
    case isTrue hcond =>
      obtain ⟨rfl, rfl⟩ : s = s' ∧ i = n := by simpa using h
      obtain ⟨hi1, hA2⟩ := hA hcond.1
      obtain ⟨-, hB2⟩ := hB hcond.2
      have h5 := hprev hi1
      refine ⟨ha0, hb0, hi1, ?_, ?_⟩ <;>
      · split
        next h2i =>
          have hmono2 : clock (i - 2) ≤ clock (i - 1) := hm (by omega)
          omega
        next h2i => omega
    case isFalse hcond =>
      have hA3 : s.arrival_a = 0 ∨ (1 ≤ i ∧ s.arrival_a ≤ clock (i - 1)) := by
        by_cases hz : s.arrival_a = 0
        · exact Or.inl hz
        · exact Or.inr (hA hz)
      have hB3 : s.arrival_b = 0 ∨ (1 ≤ i ∧ s.arrival_b ≤ clock (i - 1)) := by
        by_cases hz : s.arrival_b = 0
        · exact Or.inl hz
        · exact Or.inr (hB hz)
      have hm1 : 1 ≤ i → clock (i - 1) ≤ clock i := fun h1 => hm (by omega)
      split at h
      case isTrue hbrk =>
        obtain ⟨rfl, rfl⟩ : raceStep ta tb s (clock i) = s' ∧ i + 1 = n := by
          simpa using h
        have e1 : i + 1 - 1 = i := by omega
        have e2 : i + 1 - 2 = i - 1 := by omega
        rw [e1, e2]
        have hcomp : ∀ (t x : Int), 0 ≤ x →
            (x ≠ 0 → 1 ≤ i ∧ x ≤ clock (i - 1)) →
            0 ≤ (if x = 0 ∧ t ≤ clock i then u32 (clock i) else x) ∧
            (if x = 0 ∧ t ≤ clock i then u32 (clock i) else x) ≤
              5000 + (clock i - if 2 ≤ i + 1 then clock (i - 1) else 0) := by
          intro t x hx hbound
          have hx3 : x = 0 ∨ (1 ≤ i ∧ x ≤ clock (i - 1)) := by
            by_cases hz : x = 0
            · exact Or.inl hz
            · exact Or.inr (hbound hz)
          by_cases h1i : 1 ≤ i
          · rw [if_pos (show 2 ≤ i + 1 by omega)]
            have hp1 := hprev h1i
            have hp2 := hm1 h1i
            constructor
            · split
              · unfold u32; omega
              · exact hx
            · split
              · unfold u32; omega
              · rcases hx3 with h3 | h3 <;> omega
          · rw [if_neg (show ¬2 ≤ i + 1 by omega)]
            constructor
            · split
              · unfold u32; omega
              · exact hx
            · split
              · unfold u32; omega
              · rcases hx3 with h3 | h3 <;> omega
        simp only [raceStep]
        obtain ⟨q1, q2⟩ := hcomp ta s.arrival_a ha0 hA
        obtain ⟨q3, q4⟩ := hcomp tb s.arrival_b hb0 hB
        exact ⟨q1, q3, by omega, q2, q4⟩
      case isFalse hbrk =>
        have hnb : clock i ≤ 5000 := not_lt.mp hbrk
        apply ih (i + 1) (raceStep ta tb s (clock i)) s' n ?_ ?_ ?_ ?_ ?_ h
        · simp only [raceStep]
          split
          · unfold u32; omega
          · exact ha0
        · simp only [raceStep]
          split
          · unfold u32; omega
          · exact hb0
        · rw [show i + 1 - 1 = i from by omega]
          simp only [raceStep]
          split
          · intro _
            refine ⟨by omega, ?_⟩
            unfold u32; omega
          · intro hz
            obtain ⟨h3, h4⟩ := hA hz
            exact ⟨by omega, le_trans h4 (hm1 h3)⟩
        · rw [show i + 1 - 1 = i from by omega]
          simp only [raceStep]
          split
          · intro _
            refine ⟨by omega, ?_⟩
            unfold u32; omega
          · intro hz
            obtain ⟨h3, h4⟩ := hB hz
            exact ⟨by omega, le_trans h4 (hm1 h3)⟩
        · intro _
          rw [show i + 1 - 1 = i from by omega]
          exact hnb

/-- C6. For every bias and every monotone clock of nonnegative elapsed
readings, the returned latency is nonnegative and never exceeds the
5000 time-unit timeout plus one polling granularity, the increment
between the last two clock readings of the run (the reading before the
first is elapsed time 0). -/
theorem c6_latency_bounds (bias : ℚ) (cycles : ℕ) (clock : ℕ → Int)
    (fuel : ℕ) (hm : Monotone clock) (h0 : 0 ≤ clock 0)
    (s : RaceState) (n : ℕ)
    (h : raceLoop (target_a bias cycles) (target_b bias) clock fuel 0 ⟨0, 0⟩ =
      some (s, n)) :
    run_symmetric_race bias cycles clock fuel = some (extract s) ∧
    0 ≤ (extract s).latency ∧
    (extract s).latency ≤
      5000 + (clock (n - 1) - if 2 ≤ n then clock (n - 2) else 0) := by
  obtain ⟨ha, hb, hn, hba, hbb⟩ := raceLoop_bound clock hm h0
    (target_a bias cycles) (target_b bias) fuel 0 ⟨0, 0⟩ s n
    le_rfl le_rfl (fun hz => absurd rfl hz) (fun hz => absurd rfl hz)
    (fun h1 => absurd h1 (by omega)) h
  refine ⟨by rw [run_symmetric_race, h]; rfl, ?_, ?_⟩
  · simp only [extract]
    split
    · exact ha
    · exact hb
  · simp only [extract]
    split
    · exact hba
    · exact hbb

/-- Witness for C6: a concrete run exiting at the first reading 1500;
the latency 1500 is within 5000 plus the polling increment. -/
theorem c6_witness :
    run_symmetric_race (1/2) 0 (fun n => 1500 * ((n : Int) + 1)) 2 =
      some (extract ⟨1500, 1500⟩) ∧
    0 ≤ (extract ⟨1500, 1500⟩).latency ∧
    (extract ⟨1500, 1500⟩).latency ≤
      5000 + ((fun n => 1500 * ((n : Int) + 1)) (1 - 1) -
        if 2 ≤ 1 then (fun n => 1500 * ((n : Int) + 1)) (1 - 2) else 0) := by
  have hcalc : raceLoop (target_a (1/2) 0) (target_b (1/2))
      (fun n => 1500 * ((n : Int) + 1)) 2 0 ⟨0, 0⟩ = some (⟨1500, 1500⟩, 1) := by
    rw [target_half_a, target_half_b]; decide
  exact c6_latency_bounds (1/2) 0 (fun n => 1500 * ((n : Int) + 1)) 2
    (fun a b hab => by dsimp only; omega) (by norm_num) ⟨1500, 1500⟩ 1 hcalc

/-- C1. At the exit of the race loop, for every bias input, the returned
latency equals the minimum of the two arrival markers held at loop exit
and the returned delta equals their absolute difference, in every case
including timeout exits with sentinel markers. -/
theorem c1_latency_min_delta_abs (bias : ℚ) (cycles : ℕ) (clock : ℕ → Int)
    (fuel : ℕ) (s : RaceState) (n : ℕ)
    (h : raceLoop (target_a bias cycles) (target_b bias) clock fuel 0 ⟨0, 0⟩ =
      some (s, n)) :
    run_symmetric_race bias cycles clock fuel =
      some ⟨if s.arrival_a ≤ s.arrival_b then 0 else 1,
            min s.arrival_a s.arrival_b,
            |s.arrival_a - s.arrival_b|⟩ := by
  rw [run_symmetric_race, h]
  rcases le_or_lt s.arrival_a s.arrival_b with hle | hlt
  · simp [extract, hle, min_eq_left hle, not_lt.mpr hle,
      abs_of_nonpos (sub_nonpos.mpr hle)]
  · simp [extract, not_le.mpr hlt, min_eq_right hlt.le, hlt,
      abs_of_pos (sub_pos.mpr hlt)]

/-- Witness for C1: a concrete race where both paths arrive at 1500. -/
theorem c1_witness :
    run_symmetric_race (1/2) 0 (fun _ => 1500) 2 = some ⟨0, 1500, 0⟩ := by
  have h : raceLoop (target_a (1/2) 0) (target_b (1/2)) (fun _ => 1500) 2 0 ⟨0, 0⟩ =
      some (⟨1500, 1500⟩, 1) := by
    rw [target_half_a, target_half_b]; decide
  have := c1_latency_min_delta_abs (1/2) 0 (fun _ => 1500) 2 ⟨1500, 1500⟩ 1 h
  simpa using this

/-- C4. Whenever the two arrival markers are equal at loop exit (in
particular when both thresholds are satisfied at the first poll), the
declared winner is path A (winner code 0), via the `<=` comparison. -/
theorem c4_tie_break_to_a (bias : ℚ) (cycles : ℕ) (clock : ℕ → Int)
    (fuel : ℕ) (s : RaceState) (n : ℕ)
    (h : raceLoop (target_a bias cycles) (target_b bias) clock fuel 0 ⟨0, 0⟩ =
      some (s, n))
    (heq : s.arrival_a = s.arrival_b) :
    run_symmetric_race bias cycles clock fuel = some ⟨0, s.arrival_a, 0⟩ := by
  rw [run_symmetric_race, h]
  simp [extract, heq]

/-- Witness for C4: with bias 0 both thresholds are 1000 and both paths
arrive at the first poll with reading 1500; A is declared winner. -/
theorem c4_witness :
    run_symmetric_race 0 0 (fun _ => 1500) 2 = some ⟨0, 1500, 0⟩ := by
  have h : raceLoop (target_a 0 0) (target_b 0) (fun _ => 1500) 2 0 ⟨0, 0⟩ =
      some (⟨1500, 1500⟩, 1) := by
    rw [target_zero_a, target_zero_b]; decide
  exact c4_tie_break_to_a 0 0 (fun _ => 1500) 2 ⟨1500, 1500⟩ 1 h rfl

/-- C7. Determinism under fixed inputs: for a fixed bias, fixed entropy
sample and the same scripted sequence of elapsed-time readings, two
invocations of the race engine return exactly the same result triple. -/
theorem c7_deterministic (bias : ℚ) (cycles : ℕ) (fuel : ℕ)
    (clock1 clock2 : ℕ → Int) (h : ∀ i, clock1 i = clock2 i) :
    run_symmetric_race bias cycles clock1 fuel =
      run_symmetric_race bias cycles clock2 fuel := by
  have hc : clock1 = clock2 := funext h
  rw [hc]

/-- Witness for C7: two syntactically different scripts of the same
reading sequence produce the same result. -/
theorem c7_witness :
    run_symmetric_race (1/2) 0 (fun _ => 1500) 2 =
      run_symmetric_race (1/2) 0 (fun n => 1500 + 0 * (n : Int)) 2 := by
  exact c7_deterministic (1/2) 0 2 _ _ (fun i => by ring)

/-- C9. If the race loop exits with exactly one marker still at the
sentinel 0 and the other positive, the path that never arrived is
declared winner with latency 0, and delta equals the arrival time of
the path that did arrive. -/
theorem c9_timeout_one_arrival (bias : ℚ) (cycles : ℕ) (clock : ℕ → Int)
    (fuel : ℕ) (s : RaceState) (n : ℕ)
    (h : raceLoop (target_a bias cycles) (target_b bias) clock fuel 0 ⟨0, 0⟩ =
      some (s, n)) :
    (s.arrival_a = 0 → 0 < s.arrival_b →
      run_symmetric_race bias cycles clock fuel = some ⟨0, 0, s.arrival_b⟩) ∧
    (s.arrival_b = 0 → 0 < s.arrival_a →
      run_symmetric_race bias cycles clock fuel = some ⟨1, 0, s.arrival_a⟩) := by
  constructor
  · intro ha hb
    rw [run_symmetric_race, h]
    simp [extract, ha, hb.le, not_lt.mpr hb.le]
  · intro hb ha
    rw [run_symmetric_race, h]
    simp [extract, hb, ha, not_le.mpr ha]

/-- Witness for C9: both one-sided timeout scenarios, concretely. With
bias 5/2 path A's wrapped threshold is unreachable and B arrives at
2300; with bias -10 path B's wrapped threshold is unreachable and A
arrives at 7000. -/
theorem c9_witness :
    run_symmetric_race (5/2) 0 (fun n => 2300 + 3000 * (n : Int)) 3 =
      some ⟨0, 0, 2300⟩ ∧
    run_symmetric_race (-10) 0 (fun _ => 7000) 1 = some ⟨1, 0, 7000⟩ := by
  have h1 : raceLoop (target_a (5/2) 0) (target_b (5/2))
      (fun n => 2300 + 3000 * (n : Int)) 3 0 ⟨0, 0⟩ = some (⟨0, 2300⟩, 2) := by
    rw [target_fivehalves_a, target_fivehalves_b]; decide
  have h2 : raceLoop (target_a (-10) 0) (target_b (-10))
      (fun _ => 7000) 1 0 ⟨0, 0⟩ = some (⟨7000, 0⟩, 1) := by
    rw [target_negten_a, target_negten_b]; decide
  constructor
  · exact (c9_timeout_one_arrival (5/2) 0 _ 3 ⟨0, 2300⟩ 2 h1).1 rfl (by norm_num)
  · exact (c9_timeout_one_arrival (-10) 0 _ 1 ⟨7000, 0⟩ 1 h2).2 rfl (by norm_num)

lemma biasTerm_fivehalves : biasTerm (5/2) = 1250 := by
  norm_num [biasTerm, truncQ]

lemma biasTerm_two : biasTerm 2 = 1000 := by
  norm_num [biasTerm, truncQ]

lemma biasTerm_negtwo : biasTerm (-2) = -1000 := by
  rw [biasTerm, truncQ, show ((-2 : ℚ) * 500) = ((-1000 : ℤ) : ℚ) by norm_num]
  rw [if_neg (by norm_num), Int.ceil_intCast]

lemma biasTerm_negten : biasTerm (-10) = -5000 := by
  rw [biasTerm, truncQ, show ((-10 : ℚ) * 500) = ((-5000 : ℤ) : ℚ) by norm_num]
  rw [if_neg (by norm_num), Int.ceil_intCast]

/-- Threshold computation for bias -2 with entropy sample 0: the
computed threshold of path B is exactly 0. -/
lemma target_negtwo_a : target_a (-2) 0 = 2000 := by
  rw [target_a, biasTerm_negtwo]
  norm_num [u32, cpuJitter]

lemma target_negtwo_b : target_b (-2) = 0 := by
  rw [target_b, biasTerm_negtwo]
  norm_num [u32]

/-- If path B's threshold is above every clock reading, the race loop
can never set path B's marker. -/
lemma raceLoop_b_never (ta tb : Int) (clock : ℕ → Int)
    (hc : ∀ k, clock k < tb) :
    ∀ (fuel i : ℕ) (s s' : RaceState) (n : ℕ),
      s.arrival_b = 0 →
      raceLoop ta tb clock fuel i s = some (s', n) → s'.arrival_b = 0 := by
  intro fuel
  induction fuel with
  | zero => intro i s s' n _ h; simp [raceLoop] at h
  | succ fuel ih =>
    intro i s s' n hb h
    have hstep : (raceStep ta tb s (clock i)).arrival_b = 0 := by
      simp only [raceStep]
      rw [if_neg]
      · exact hb
      · intro hcon
        exact absurd hcon.2 (not_le.mpr (hc i))
    rw [raceLoop] at h
    split at h
    · obtain ⟨rfl, rfl⟩ : s = s' ∧ i = n := by simpa using h
      exact hb
    · split at h
      · obtain ⟨rfl, rfl⟩ : raceStep ta tb s (clock i) = s' ∧ i + 1 = n := by
          simpa using h
        exact hstep
      · exact ih (i+1) (raceStep ta tb s (clock i)) s' n hstep h

/-- Counterexample to C2. For bias 5/2 the computed threshold of path A
is mathematically negative (-250), but it is not tolerated as an
immediate crossing: stored in a `uint32_t` it wraps to 4294967046, so
path A's arrival is not recorded at the first sampled elapsed time
(2300) — the run exits by timeout with path A's marker still at the
sentinel 0. -/
theorem c2_counterexample :
    1000 - biasTerm (5/2) + cpuJitter 0 < 0 ∧
    raceLoop (target_a (5/2) 0) (target_b (5/2))
      (fun n => 2300 + 3000 * (n : Int)) 3 0 ⟨0, 0⟩ = some (⟨0, 2300⟩, 2) ∧
    (⟨0, 2300⟩ : RaceState).arrival_a ≠ (fun n => 2300 + 3000 * (n : Int)) 0 ∧
    run_symmetric_race (5/2) 0 (fun n => 2300 + 3000 * (n : Int)) 3 =
      some ⟨0, 0, 2300⟩ := by
  have hloop : raceLoop (target_a (5/2) 0) (target_b (5/2))
      (fun n => 2300 + 3000 * (n : Int)) 3 0 ⟨0, 0⟩ = some (⟨0, 2300⟩, 2) := by
    rw [target_fivehalves_a, target_fivehalves_b]; decide
  refine ⟨?_, hloop, by norm_num, ?_⟩
  · rw [biasTerm_fivehalves]
    norm_num [cpuJitter]
  · rw [run_symmetric_race, hloop]
    rfl

/-- C2 (amended). A computed threshold of exactly zero is tolerated, on
either path: that path is crossed at the very first poll provided that
poll's reading is strictly positive (and below 2^32). A negative
computed threshold t, on either path, wraps modulo 2^32 into the huge
unsigned value 2^32 + t, and that path is never crossed while the
sampled readings stay below that value, so in particular it is not
crossed at the first poll. -/
theorem c2_amended (bias : ℚ) (cycles : ℕ) (clock : ℕ → Int) :
    (1000 - biasTerm bias + cpuJitter cycles = 0 →
      0 < clock 0 → clock 0 < 4294967296 →
      (raceStep (target_a bias cycles) (target_b bias) ⟨0, 0⟩ (clock 0)).arrival_a =
        clock 0) ∧
    (1000 - biasTerm bias + cpuJitter cycles < 0 →
      -4294967296 < 1000 - biasTerm bias + cpuJitter cycles →
      (∀ k, clock k < 4294967296 + (1000 - biasTerm bias + cpuJitter cycles)) →
      ∀ (fuel n : ℕ) (s' : RaceState),
        raceLoop (target_a bias cycles) (target_b bias) clock fuel 0 ⟨0, 0⟩ =
          some (s', n) →
        s'.arrival_a = 0) ∧
    (1000 + biasTerm bias = 0 →
      0 < clock 0 → clock 0 < 4294967296 →
      (raceStep (target_a bias cycles) (target_b bias) ⟨0, 0⟩ (clock 0)).arrival_b =
        clock 0) ∧
    (1000 + biasTerm bias < 0 →
      -4294967296 < 1000 + biasTerm bias →
      (∀ k, clock k < 4294967296 + (1000 + biasTerm bias)) →
      ∀ (fuel n : ℕ) (s' : RaceState),
        raceLoop (target_a bias cycles) (target_b bias) clock fuel 0 ⟨0, 0⟩ =
          some (s', n) →
        s'.arrival_b = 0) := by
  refine ⟨?_, ?_, ?_, ?_⟩
  · intro ht h0c hlt
    have hta : target_a bias cycles = 0 := by
      rw [target_a, ht]
      rfl
    rw [hta]
    unfold raceStep
    dsimp only
    rw [if_pos ⟨rfl, h0c.le⟩]
    unfold u32
    omega
  · intro ht hlow hcl fuel n s' hloop
    have hta : target_a bias cycles =
        4294967296 + (1000 - biasTerm bias + cpuJitter cycles) := by
      rw [target_a]
      unfold u32
      omega
    exact raceLoop_a_never (target_a bias cycles) (target_b bias) clock
      (fun k => by rw [hta]; exact hcl k) fuel 0 ⟨0, 0⟩ s' n rfl hloop
  · intro ht h0c hlt
    have htb : target_b bias = 0 := by
      rw [target_b, ht]
      rfl
    rw [htb]
    unfold raceStep
    dsimp only
    rw [if_pos ⟨rfl, h0c.le⟩]
    unfold u32
    omega
  · intro ht hlow hcl fuel n s' hloop
    have htb : target_b bias = 4294967296 + (1000 + biasTerm bias) := by
      rw [target_b]
      unfold u32
      omega
    exact raceLoop_b_never (target_a bias cycles) (target_b bias) clock
      (fun k => by rw [htb]; exact hcl k) fuel 0 ⟨0, 0⟩ s' n rfl hloop

/-- Witness for C2 (amended), all four parts: bias 2 gives path A's
threshold exactly 0, crossed at a first poll reading 700; bias 5/2
gives path A the threshold -250, wrapped, and a run with readings 100
then 6000 times out with A's marker still 0; bias -2 gives path B's
threshold exactly 0, crossed at a first poll reading 700; bias -10
gives path B the threshold -4000, wrapped, and the same readings leave
B's marker at 0. -/
theorem c2_amended_witness :
    (raceStep (target_a 2 0) (target_b 2) ⟨0, 0⟩ 700).arrival_a = 700 ∧
    raceLoop (target_a (5/2) 0) (target_b (5/2))
      (fun n => if n = 0 then (100 : Int) else 6000) 3 0 ⟨0, 0⟩ =
      some (⟨0, 6000⟩, 2) ∧
    (⟨0, 6000⟩ : RaceState).arrival_a = 0 ∧
    (raceStep (target_a (-2) 0) (target_b (-2)) ⟨0, 0⟩ 700).arrival_b = 700 ∧
    raceLoop (target_a (-10) 0) (target_b (-10))
      (fun n => if n = 0 then (100 : Int) else 6000) 3 0 ⟨0, 0⟩ =
      some (⟨6000, 0⟩, 2) ∧
    (⟨6000, 0⟩ : RaceState).arrival_b = 0 := by
  have hloop : raceLoop (target_a (5/2) 0) (target_b (5/2))
      (fun n => if n = 0 then (100 : Int) else 6000) 3 0 ⟨0, 0⟩ =
      some (⟨0, 6000⟩, 2) := by
    rw [target_fivehalves_a, target_fivehalves_b]; decide
  have hloop2 : raceLoop (target_a (-10) 0) (target_b (-10))
      (fun n => if n = 0 then (100 : Int) else 6000) 3 0 ⟨0, 0⟩ =
      some (⟨6000, 0⟩, 2) := by
    rw [target_negten_a, target_negten_b]; decide
  refine ⟨?_, hloop, ?_, ?_, hloop2, ?_⟩
  · have h := (c2_amended 2 0 (fun _ => 700)).1
      (by rw [biasTerm_two]; norm_num [cpuJitter]) (by norm_num) (by norm_num)
    simpa using h
  · refine (c2_amended (5/2) 0 (fun n => if n = 0 then (100 : Int) else 6000)).2.1
      (by rw [biasTerm_fivehalves]; norm_num [cpuJitter])
      (by rw [biasTerm_fivehalves]; norm_num [cpuJitter])
      (fun k => ?_) 3 2 ⟨0, 6000⟩ hloop
    rw [biasTerm_fivehalves]
    rcases Nat.eq_zero_or_pos k with rfl | hk
    · norm_num [cpuJitter]
    · have : k ≠ 0 := by omega
      simp only [this, if_false]
      norm_num [cpuJitter]
  · have h := (c2_amended (-2) 0 (fun _ => 700)).2.2.1
      (by rw [biasTerm_negtwo]; norm_num) (by norm_num) (by norm_num)
    simpa using h
  · refine (c2_amended (-10) 0 (fun n => if n = 0 then (100 : Int) else 6000)).2.2.2
      (by rw [biasTerm_negten]; norm_num)
      (by rw [biasTerm_negten]; norm_num)
      (fun k => ?_) 3 2 ⟨6000, 0⟩ hloop2
    rw [biasTerm_negten]
    rcases Nat.eq_zero_or_pos k with rfl | hk
    · norm_num
    · have : k ≠ 0 := by omega
      simp only [this, if_false]
      norm_num

/-- Counterexample to C3. For bias 1/512 (an exactly representable
value whose product with 500 is 125/128), the code's truncating cast
yields bias term 0 and thresholds 1000/1000, while the spec's
round-to-nearest formula yields 999/1001: the thresholds are not
computed by rounding to the nearest integer. -/
theorem c3_counterexample :
    target_a (1/512) 0 = 1000 ∧ target_b (1/512) = 1000 ∧
    target_a_round (1/512) 0 = 999 ∧ target_b_round (1/512) = 1001 ∧
    target_a (1/512) 0 ≠ target_a_round (1/512) 0 ∧
    target_b (1/512) ≠ target_b_round (1/512) := by
  have h1 : target_a (1/512) 0 = 1000 := by
    norm_num [target_a, biasTerm, truncQ, u32, cpuJitter]
  have h2 : target_b (1/512) = 1000 := by
    norm_num [target_b, biasTerm, truncQ, u32]
  have h3 : round ((1/512 : ℚ) * 500) = 1 := by
    norm_num [round_eq]
  have h4 : target_a_round (1/512) 0 = 999 := by
    rw [target_a_round, h3]
    norm_num
  have h5 : target_b_round (1/512) = 1001 := by
    rw [target_b_round, h3]
    norm_num
  exact ⟨h1, h2, h4, h5, by rw [h1, h4]; norm_num, by rw [h2, h5]; norm_num⟩

/-- C3 (amended). The bias-times-500 term is truncated toward zero (the
C float-to-int cast), not rounded to nearest: for nonnegative bias it
is the floor of bias*500, for nonpositive bias the ceiling, and the
result is applied to the 1000-unit baseline modulo 2^32. -/
theorem c3_amended (bias : ℚ) (cycles : ℕ) :
    (0 ≤ bias →
      target_a bias cycles = u32 (1000 - ⌊bias * 500⌋ + cpuJitter cycles) ∧
      target_b bias = u32 (1000 + ⌊bias * 500⌋)) ∧
    (bias ≤ 0 →
      target_a bias cycles = u32 (1000 - ⌈bias * 500⌉ + cpuJitter cycles) ∧
      target_b bias = u32 (1000 + ⌈bias * 500⌉)) := by
  have hfl : 0 ≤ bias → biasTerm bias = ⌊bias * 500⌋ := by
    intro h
    rw [biasTerm, truncQ, if_pos (mul_nonneg h (by norm_num))]
  have hce : bias ≤ 0 → biasTerm bias = ⌈bias * 500⌉ := by
    intro h
    by_cases h0 : 0 ≤ bias * 500
    · have hz : bias * 500 = 0 := le_antisymm (by nlinarith) h0
      rw [biasTerm, truncQ, hz]
      norm_num
    · rw [biasTerm, truncQ, if_neg h0]
  exact ⟨fun h => ⟨by rw [target_a, hfl h], by rw [target_b, hfl h]⟩,
         fun h => ⟨by rw [target_a, hce h], by rw [target_b, hce h]⟩⟩

/-- Witness for C3 (amended): at bias 1/2 the truncated term is the
floor of 250, giving thresholds 750 and 1250. -/
theorem c3_amended_witness :
    target_a (1/2) 0 = u32 (1000 - ⌊(1/2 : ℚ) * 500⌋ + cpuJitter 0) ∧
    target_b (1/2) = u32 (1000 + ⌊(1/2 : ℚ) * 500⌋) := by
  exact (c3_amended (1/2) 0).1 (by norm_num)

/-- Counterexample to C8. The clock 800, 4294968047, ... is
monotonically increasing and passes 750 (at reading 800 < 1250) before
1250, yet the result is winner B with latency 751: the reading
4294968047 = 2^32 + 751 stores 751 into path B's `uint32_t` marker,
beating path A's 800. -/
theorem c8_counterexample :
    run_symmetric_race (1/2) 0
      (fun n => if n = 0 then (800 : Int) else 4294968046 + (n : Int)) 3 =
      some ⟨1, 751, 49⟩ := by
  rw [run_symmetric_race, target_half_a, target_half_b]
  decide

/-- C8 (amended). For bias 1/2 and entropy sample 0 the thresholds are
750 and 1250; for every monotone clock of nonnegative readings that
passes 750 before 1250, provided the first reading at or above 1250 is
below 2^32 (so its `uint32_t` truncation is lossless), the result is
winner A, latency the first sampled elapsed time at or above 750, and
delta that time subtracted from the first sampled elapsed time at or
above 1250. -/
theorem c8_amended (clock : ℕ → Int) (fuel i j : ℕ)
    (hm : Monotone clock) (h0 : 0 ≤ clock 0)
    (hia : 750 ≤ clock i) (hib : clock i < 1250)
    (hiF : ∀ k, k < i → clock k < 750)
    (hja : 1250 ≤ clock j) (hjF : ∀ k, k < j → clock k < 1250)
    (hjU : clock j < 4294967296) (hfuel : j + 2 ≤ fuel) :
    run_symmetric_race (1/2) 0 clock fuel =
      some ⟨0, clock i, clock j - clock i⟩ := by
  have hij : i < j := by
    by_contra hc
    push_neg at hc
    have := hm hc
    omega
  have h0i : 0 ≤ clock i := le_trans h0 (hm (Nat.zero_le i))
  have h0j : 0 ≤ clock j := le_trans h0 (hm (Nat.zero_le j))
  rw [run_symmetric_race, target_half_a, target_half_b]
  rw [show fuel = i + (fuel - i) from by omega]
  rw [raceLoop_skip 750 1250 clock i (fuel - i) 0 ⟨0, 0⟩ (by simp)
    (fun k hk1 hk2 => by
      have hk := hiF k (by omega)
      exact ⟨raceStep_id 750 1250 (clock k) ⟨0, 0⟩ (Or.inr hk)
        (Or.inr (by omega)), by omega⟩)]
  rw [Nat.zero_add]
  rw [show fuel - i = (fuel - i - 1) + 1 from by omega]
  rw [raceLoop]
  rw [if_neg (by simp), if_neg (show ¬5000 < clock i from by omega)]
  have hstep_i : raceStep 750 1250 ⟨0, 0⟩ (clock i) = ⟨clock i, 0⟩ := by
    unfold raceStep
    rw [if_pos ⟨rfl, hia⟩, if_neg (by rintro ⟨-, hge⟩; omega)]
    rw [show u32 (clock i) = clock i from by unfold u32; omega]
  rw [hstep_i]
  rw [show fuel - i - 1 = (j - i - 1) + (fuel - j) from by omega]
  rw [raceLoop_skip 750 1250 clock (j - i - 1) (fuel - j) (i + 1) ⟨clock i, 0⟩
    (by rintro ⟨-, hb2⟩; exact hb2 rfl)
    (fun k hk1 hk2 => by
      have hk := hjF k (by omega)
      refine ⟨raceStep_id 750 1250 (clock k) ⟨clock i, 0⟩
        (Or.inl (show clock i ≠ 0 from by omega)) (Or.inr hk), by omega⟩)]
  rw [show i + 1 + (j - i - 1) = j from by omega]
  rw [show fuel - j = (fuel - j - 1) + 1 from by omega]
  rw [raceLoop]
  rw [if_neg (by rintro ⟨-, hb2⟩; exact hb2 rfl)]
  have hstep_j : raceStep 750 1250 ⟨clock i, 0⟩ (clock j) = ⟨clock i, clock j⟩ := by
    unfold raceStep
    rw [if_neg (by
        intro hcon
        have h1 : clock i = 0 := hcon.1
        omega),
      if_pos ⟨rfl, hja⟩]
    rw [show u32 (clock j) = clock j from by unfold u32; omega]
  rw [hstep_j]
  have hfin : extract ⟨clock i, clock j⟩ = ⟨0, clock i, clock j - clock i⟩ := by
    simp [extract, show clock i ≤ clock j from by omega,
      show ¬clock j < clock i from by omega]
  by_cases hbj : 5000 < clock j
  · rw [if_pos hbj]
    simp [hfin]
  · rw [if_neg hbj]
    rw [show fuel - j - 1 = (fuel - j - 2) + 1 from by omega]
    rw [raceLoop]
    rw [if_pos ⟨show clock i ≠ 0 from by omega, show clock j ≠ 0 from by omega⟩]
    simp [hfin]

/-- Witness for C8 (amended): the clock 200, 500, 800, 1100, 1400, ...
first reaches 750 at reading 800 and 1250 at reading 1400; the engine
returns winner A, latency 800, delta 600. -/
theorem c8_amended_witness :
    run_symmetric_race (1/2) 0 (fun n => 200 + 300 * (n : Int)) 6 =
      some ⟨0, 800, 600⟩ := by
  have h := c8_amended (fun n => 200 + 300 * (n : Int)) 6 2 4
    (fun a b hab => by dsimp only; omega) (by norm_num)
    (by norm_num) (by norm_num)
    (fun k hk => by interval_cases k <;> norm_num)
    (by norm_num)
    (fun k hk => by interval_cases k <;> norm_num)
    (by norm_num) (by norm_num)
  simpa using h

/-- An iteration of the race loop maps nonnegative markers to
nonnegative markers. -/
lemma raceStep_nonneg (ta tb c : Int) (s : RaceState)
    (ha : 0 ≤ s.arrival_a) (hb : 0 ≤ s.arrival_b) :
    0 ≤ (raceStep ta tb s c).arrival_a ∧ 0 ≤ (raceStep ta tb s c).arrival_b := by
  unfold raceStep
  constructor
  · dsimp only
    split
    · unfold u32; omega
    · exact ha
  · dsimp only
    split
    · unfold u32; omega
    · exact hb

/-- The race loop maps nonnegative markers to nonnegative markers. -/
lemma raceLoop_nonneg (ta tb : Int) (clock : ℕ → Int) :
    ∀ (fuel i : ℕ) (s s' : RaceState) (n : ℕ),
      0 ≤ s.arrival_a → 0 ≤ s.arrival_b →
      raceLoop ta tb clock fuel i s = some (s', n) →
      0 ≤ s'.arrival_a ∧ 0 ≤ s'.arrival_b := by
  intro fuel
  induction fuel with
  | zero => intro i s s' n _ _ h; simp [raceLoop] at h
  | succ fuel ih =>
    intro i s s' n ha hb h
    rw [raceLoop] at h
    split at h
    · obtain ⟨rfl, rfl⟩ : s = s' ∧ i = n := by simpa using h
      exact ⟨ha, hb⟩
    · obtain ⟨hna, hnb⟩ := raceStep_nonneg ta tb (clock i) s ha hb
      split at h
      · obtain ⟨rfl, rfl⟩ : raceStep ta tb s (clock i) = s' ∧ i + 1 = n := by
          simpa using h
        exact ⟨hna, hnb⟩
      · exact ih (i+1) _ s' n hna hnb h

/-- An iteration at elapsed time 0 from the initial state leaves the
state unchanged: storing `(uint32_t)0` re-stores the sentinel. -/
lemma raceStep_zero (ta tb : Int) : raceStep ta tb ⟨0, 0⟩ 0 = ⟨0, 0⟩ := by
  simp [raceStep, u32]

/-- Counterexample to C10. With bias 2 the computed threshold of path A
is exactly 0, satisfied at the first reading 0; the first strictly
positive reading is 2^32, whose `uint32_t` truncation is 0, so the
recorded arrival re-stores the sentinel and the loop then exits by
timeout with path A's marker still 0: the arrival is never deferred to
the first strictly positive reading. -/
theorem c10_counterexample :
    target_a 2 0 = 0 ∧
    (fun n => if n = 0 then (0 : Int) else 4294967296) 0 = 0 ∧
    0 < (fun n => if n = 0 then (0 : Int) else 4294967296) 1 ∧
    raceLoop (target_a 2 0) (target_b 2)
      (fun n => if n = 0 then (0 : Int) else 4294967296) 3 0 ⟨0, 0⟩ =
      some (⟨0, 0⟩, 2) ∧
    (⟨0, 0⟩ : RaceState).arrival_a = 0 := by
  refine ⟨target_two_a, rfl, by norm_num, ?_, rfl⟩
  rw [target_two_a, target_two_b]
  decide

/-- C10 (amended). Each arrival marker stays nonnegative throughout the
loop and, once nonzero, is never modified again; recording an arrival
at a reading congruent to 0 modulo 2^32 re-stores the sentinel, so a
path (either A or B) whose threshold is 0 (satisfied at reading 0) has
its arrival deferred to the first strictly positive reading, provided
that reading is below 2^32. -/
theorem c10_amended :
    (∀ (ta tb : Int) (clock : ℕ → Int) (fuel i n : ℕ) (s s' : RaceState),
        raceLoop ta tb clock fuel i s = some (s', n) →
        0 ≤ s.arrival_a → 0 ≤ s.arrival_b →
        0 ≤ s'.arrival_a ∧ 0 ≤ s'.arrival_b ∧
        (s.arrival_a ≠ 0 → s'.arrival_a = s.arrival_a) ∧
        (s.arrival_b ≠ 0 → s'.arrival_b = s.arrival_b)) ∧
    (∀ (bias : ℚ) (cycles : ℕ) (clock : ℕ → Int) (j fuel n : ℕ) (s' : RaceState),
        target_a bias cycles = 0 →
        (∀ k, k < j → clock k = 0) → 0 < clock j → clock j < 4294967296 →
        j < fuel →
        raceLoop (target_a bias cycles) (target_b bias) clock fuel 0 ⟨0, 0⟩ =
          some (s', n) →
        s'.arrival_a = clock j) ∧
    (∀ (bias : ℚ) (cycles : ℕ) (clock : ℕ → Int) (j fuel n : ℕ) (s' : RaceState),
        target_b bias = 0 →
        (∀ k, k < j → clock k = 0) → 0 < clock j → clock j < 4294967296 →
        j < fuel →
        raceLoop (target_a bias cycles) (target_b bias) clock fuel 0 ⟨0, 0⟩ =
          some (s', n) →
        s'.arrival_b = clock j) := by
  refine ⟨?_, ?_, ?_⟩
  · intro ta tb clock fuel i n s s' h ha hb
    obtain ⟨h1, h2⟩ := raceLoop_nonneg ta tb clock fuel i s s' n ha hb h
    obtain ⟨h3, h4⟩ := raceLoop_keep ta tb clock fuel i s s' n h
    exact ⟨h1, h2, h3, h4⟩
  · intro bias cycles clock j fuel n s' hta hzero hpos hlt hfuel h
    rw [hta] at h
    rw [show fuel = j + (fuel - j) from by omega] at h
    rw [raceLoop_skip 0 (target_b bias) clock j (fuel - j) 0 ⟨0, 0⟩ (by simp)
      (fun k h1 h2 => ⟨by rw [hzero k (by omega)]
                          exact raceStep_zero 0 (target_b bias),
                       by rw [hzero k (by omega)]; norm_num⟩)] at h
    rw [Nat.zero_add] at h
    rw [show fuel - j = (fuel - j - 1) + 1 from by omega] at h
    rw [raceLoop] at h
    rw [if_neg (by simp)] at h
    have hs1a : (raceStep 0 (target_b bias) ⟨0, 0⟩ (clock j)).arrival_a = clock j := by
      unfold raceStep
      dsimp only
      rw [if_pos ⟨rfl, hpos.le⟩]
      unfold u32
      omega
    split at h
    · obtain ⟨rfl, rfl⟩ :
          raceStep 0 (target_b bias) ⟨0, 0⟩ (clock j) = s' ∧ j + 1 = n := by
        simpa using h
      exact hs1a
    · have hk := (raceLoop_keep 0 (target_b bias) clock (fuel - j - 1) (j + 1)
        (raceStep 0 (target_b bias) ⟨0, 0⟩ (clock j)) s' n h).1
        (by rw [hs1a]; omega)
      rw [hk, hs1a]
  · intro bias cycles clock j fuel n s' htb hzero hpos hlt hfuel h
    rw [htb] at h
    rw [show fuel = j + (fuel - j) from by omega] at h
    rw [raceLoop_skip (target_a bias cycles) 0 clock j (fuel - j) 0 ⟨0, 0⟩ (by simp)
      (fun k h1 h2 => ⟨by rw [hzero k (by omega)]
                          exact raceStep_zero (target_a bias cycles) 0,
                       by rw [hzero k (by omega)]; norm_num⟩)] at h
    rw [Nat.zero_add] at h
    rw [show fuel - j = (fuel - j - 1) + 1 from by omega] at h
    rw [raceLoop] at h
    rw [if_neg (by simp)] at h
    have hs1b : (raceStep (target_a bias cycles) 0 ⟨0, 0⟩ (clock j)).arrival_b =
        clock j := by
      unfold raceStep
      dsimp only
      rw [if_pos ⟨rfl, hpos.le⟩]
      unfold u32
      omega
    split at h
    · obtain ⟨rfl, rfl⟩ :
          raceStep (target_a bias cycles) 0 ⟨0, 0⟩ (clock j) = s' ∧ j + 1 = n := by
        simpa using h
      exact hs1b
    · have hk := (raceLoop_keep (target_a bias cycles) 0 clock (fuel - j - 1) (j + 1)
        (raceStep (target_a bias cycles) 0 ⟨0, 0⟩ (clock j)) s' n h).2
        (by rw [hs1b]; omega)
      rw [hk, hs1b]

/-- Witness for C10 (amended): persistence on a run started with marker
5 already set; deferral of path A with threshold 0 (bias 2) on the
readings 0, 3000, recorded at 3000, the first strictly positive
reading; and deferral of path B with threshold 0 (bias -2) on the same
readings, likewise recorded at 3000. -/
theorem c10_amended_witness :
    raceLoop 750 1250 (fun _ => 1500) 2 0 ⟨5, 0⟩ = some (⟨5, 1500⟩, 1) ∧
    (⟨5, 1500⟩ : RaceState).arrival_a = 5 ∧
    raceLoop (target_a 2 0) (target_b 2)
      (fun n => if n = 0 then (0 : Int) else 3000) 3 0 ⟨0, 0⟩ =
      some (⟨3000, 3000⟩, 2) ∧
    (⟨3000, 3000⟩ : RaceState).arrival_a =
      (fun n => if n = 0 then (0 : Int) else 3000) 1 ∧
    raceLoop (target_a (-2) 0) (target_b (-2))
      (fun n => if n = 0 then (0 : Int) else 3000) 3 0 ⟨0, 0⟩ =
      some (⟨3000, 3000⟩, 2) ∧
    (⟨3000, 3000⟩ : RaceState).arrival_b =
      (fun n => if n = 0 then (0 : Int) else 3000) 1 := by
  have hl1 : raceLoop 750 1250 (fun _ => 1500) 2 0 ⟨5, 0⟩ =
      some (⟨5, 1500⟩, 1) := by decide
  have hl2 : raceLoop (target_a 2 0) (target_b 2)
      (fun n => if n = 0 then (0 : Int) else 3000) 3 0 ⟨0, 0⟩ =
      some (⟨3000, 3000⟩, 2) := by
    rw [target_two_a, target_two_b]
    decide
  have hl3 : raceLoop (target_a (-2) 0) (target_b (-2))
      (fun n => if n = 0 then (0 : Int) else 3000) 3 0 ⟨0, 0⟩ =
      some (⟨3000, 3000⟩, 2) := by
    rw [target_negtwo_a, target_negtwo_b]
    decide
  refine ⟨hl1, ?_, hl2, ?_, hl3, ?_⟩
  · exact (c10_amended.1 750 1250 (fun _ => 1500) 2 0 1 ⟨5, 0⟩ ⟨5, 1500⟩ hl1
      (by norm_num) le_rfl).2.2.1 (by norm_num)
  · exact c10_amended.2.1 2 0 (fun n => if n = 0 then (0 : Int) else 3000) 1 3 2
      ⟨3000, 3000⟩ target_two_a
      (fun k hk => by interval_cases k; rfl)
      (by norm_num) (by norm_num) (by norm_num) hl2
  · exact c10_amended.2.2 (-2) 0 (fun n => if n = 0 then (0 : Int) else 3000) 1 3 2
      ⟨3000, 3000⟩ target_negtwo_b
      (fun k hk => by interval_cases k; rfl)
      (by norm_num) (by norm_num) (by norm_num) hl3

end TSU
